import Mathlib

/-!
Verification development for the `meme-stickers-hub` transform script
(`scripts/transform_sekai_like.py`).

The Python source is shallowly embedded: strings are modelled as `String` /
`List Char`, Python exceptions as `Except`, floats appearing only as exact
formulas as `ℚ` (with a real-number interpretation where the value is
irrational), and the async orchestration as explicit result-passing over an
environment of fetch/download oracles.
-/

set_option maxHeartbeats 1000000

/-- Decidable equality for `Except`, used to evaluate embedded functions on
concrete inputs. -/
instance {ε α : Type} [DecidableEq ε] [DecidableEq α] : DecidableEq (Except ε α) := fun x y =>
  match x, y with
  | .ok a, .ok b => if h : a = b then .isTrue (by rw [h]) else .isFalse (by simp [h])
  | .error a, .error b => if h : a = b then .isTrue (by rw [h]) else .isFalse (by simp [h])
  | .ok _, .error _ => .isFalse (by simp)
  | .error _, .ok _ => .isFalse (by simp)

/-- `true` iff an `Except` value is a success (`Except.isOk`, made local so that
claims can mention it explicitly). -/
def exceptOk {ε α : Type} (e : Except ε α) : Bool :=
  match e with
  | .ok _ => true
  | .error _ => false

/-- The two kinds of `ValueError` that `web_hex_to_color_tuple` can raise:
the explicit `raise ValueError("Invalid color format")` for a bad length, and
the `ValueError` raised by `int(_, 16)` on a non-hex character. -/
inductive ColorError : Type
  | invalidFormat
  | invalidDigit
deriving DecidableEq

/-- An RGBA tuple of 8-bit components (`RGBAColorTuple` in the source). -/
abbrev RGBA : Type := Nat × Nat × Nat × Nat

/-- Value of one hex digit, as accepted by Python's `int(_, 16)` for a single
character: `0`-`9`, `A`-`F`, `a`-`f`. -/
def hexVal (c : Char) : Option Nat :=
  if 48 ≤ c.toNat ∧ c.toNat ≤ 57 then some (c.toNat - 48)
  else if 65 ≤ c.toNat ∧ c.toNat ≤ 70 then some (c.toNat - 55)
  else if 97 ≤ c.toNat ∧ c.toNat ≤ 102 then some (c.toNat - 87)
  else none

/-- The 22 characters that are hex digits (the exact domain of `hexVal`). -/
def hexDigitChars : List Char :=
  ['0', '1', '2', '3', '4', '5', '6', '7', '8', '9',
   'A', 'B', 'C', 'D', 'E', 'F', 'a', 'b', 'c', 'd', 'e', 'f']

/-- `int(s, 16)` on a two-character slice `[a, b]`. -/
def parse2 (a b : Char) : Option Nat :=
  match hexVal a, hexVal b with
  | some x, some y => some (16 * x + y)
  | _, _ => none

/-- `str.removeprefix("#")` on the character list of a string. -/
def removeHashHead (s : List Char) : List Char :=
  match s with
  | [] => []
  | c :: rest => if c = '#' then rest else c :: rest

/-- `"".join(c * 2 for c in s)`: each character duplicated in place. -/
def dupEach : List Char → List Char
  | [] => []
  | c :: rest => c :: c :: dupEach rest

/-- The length-dispatch of `web_hex_to_color_tuple` (lines 123-132 of the
source): expand 3/4/6/8-digit forms to 8 RGBA hex digits, or raise
`ValueError("Invalid color format")`. -/
def normalizeHexDigits (l : List Char) : Except ColorError (List Char) :=
  if l.length = 3 then .ok (dupEach l ++ ['F', 'F'])
  else if l.length = 4 then .ok (dupEach (l.drop 1) ++ dupEach (l.take 1))
  else if l.length = 6 then .ok (l ++ ['F', 'F'])
  else if l.length = 8 then .ok (l.drop 2 ++ l.take 2)
  else .error .invalidFormat

/-- `tuple(int(color[i : i + 2], 16) for i in range(0, 8, 2))` on the
normalized 8-character string. -/
def parseStage (c8 : List Char) : Except ColorError RGBA :=
  match parse2 (c8.getD 0 ' ') (c8.getD 1 ' '), parse2 (c8.getD 2 ' ') (c8.getD 3 ' '),
        parse2 (c8.getD 4 ' ') (c8.getD 5 ' '), parse2 (c8.getD 6 ' ') (c8.getD 7 ' ') with
  | some r, some g, some b, some a => .ok (r, g, b, a)
  | _, _, _, _ => .error .invalidDigit

/-- Embedding of `web_hex_to_color_tuple` (source lines 120-134), on the
character list of the input string: uppercase, strip an optional leading `#`,
expand by length, then parse the four 2-digit components. -/
def web_hex_to_color_tuple (color : List Char) : Except ColorError RGBA :=
  match normalizeHexDigits (removeHashHead (color.map Char.toUpper)) with
  | .error e => .error e
  | .ok c8 => parseStage c8

theorem hexVal_le_15 {c : Char} {v : Nat} (h : hexVal c = some v) : v ≤ 15 := by
  unfold hexVal at h
  split_ifs at h with h1 h2 h3 <;> simp only [Option.some.injEq] at h <;> omega

theorem parse2_le_255 {a b : Char} {v : Nat} (h : parse2 a b = some v) : v ≤ 255 := by
  unfold parse2 at h
  cases ha : hexVal a with
  | none => rw [ha] at h; exact absurd h (by simp)
  | some x =>
    cases hb : hexVal b with
    | none => rw [ha, hb] at h; exact absurd h (by simp)
    | some y =>
      rw [ha, hb] at h
      simp only [Option.some.injEq] at h
      have := hexVal_le_15 ha
      have := hexVal_le_15 hb
      omega

theorem hexVal_toUpper_of_mem :
    ∀ c ∈ hexDigitChars, hexVal (Char.toUpper c) = hexVal c := by decide

theorem hexVal_isSome_of_mem :
    ∀ c ∈ hexDigitChars, (hexVal c).isSome = true := by decide

theorem toUpper_ne_hash_of_mem :
    ∀ c ∈ hexDigitChars, Char.toUpper c ≠ '#' := by decide

theorem dupEach_length (l : List Char) : (dupEach l).length = 2 * l.length := by
  induction l with
  | nil => rfl
  | cons c rest ih => simp only [dupEach, List.length_cons, ih]; omega

theorem mem_dupEach {c : Char} {l : List Char} (h : c ∈ dupEach l) : c ∈ l := by
  induction l with
  | nil => exact absurd h (by simp [dupEach])
  | cons x rest ih =>
    simp only [dupEach, List.mem_cons] at h ⊢
    rcases h with h | h | h
    · exact Or.inl h
    · exact Or.inl h
    · exact Or.inr (ih h)

theorem normalizeHexDigits_ok {l c8 : List Char} (h : normalizeHexDigits l = .ok c8) :
    c8.length = 8 ∧ ∀ c ∈ c8, c ∈ l ∨ c = 'F' := by
  unfold normalizeHexDigits at h
  split_ifs at h with h3 h4 h6 h8 <;> simp only [Except.ok.injEq] at h <;> subst h
  · refine ⟨by simp [dupEach_length, h3], fun c hc => ?_⟩
    rcases List.mem_append.mp hc with hc | hc
    · exact Or.inl (mem_dupEach hc)
    · simp only [List.mem_cons, List.not_mem_nil, or_false] at hc
      rcases hc with hc | hc <;> exact Or.inr hc
  · refine ⟨by simp [dupEach_length, List.length_drop, List.length_take, h4], fun c hc => ?_⟩
    rcases List.mem_append.mp hc with hc | hc
    · exact Or.inl (List.mem_of_mem_drop (mem_dupEach hc))
    · exact Or.inl (List.mem_of_mem_take (mem_dupEach hc))
  · refine ⟨by simp [h6], fun c hc => ?_⟩
    rcases List.mem_append.mp hc with hc | hc
    · exact Or.inl hc
    · simp only [List.mem_cons, List.not_mem_nil, or_false] at hc
      rcases hc with hc | hc <;> exact Or.inr hc
  · refine ⟨by simp [List.length_drop, List.length_take, h8], fun c hc => ?_⟩
    rcases List.mem_append.mp hc with hc | hc
    · exact Or.inl (List.mem_of_mem_drop hc)
    · exact Or.inl (List.mem_of_mem_take hc)

theorem normalizeHexDigits_error {l : List Char}
    (h : ¬(l.length = 3 ∨ l.length = 4 ∨ l.length = 6 ∨ l.length = 8)) :
    normalizeHexDigits l = .error .invalidFormat := by
  unfold normalizeHexDigits
  push_neg at h
  obtain ⟨h3, h4, h6, h8⟩ := h
  simp [h3, h4, h6, h8]

theorem normalizeHexDigits_isOk {l : List Char}
    (h : l.length = 3 ∨ l.length = 4 ∨ l.length = 6 ∨ l.length = 8) :
    ∃ c8, normalizeHexDigits l = .ok c8 := by
  unfold normalizeHexDigits
  rcases h with h | h | h | h <;> simp [h]

theorem parseStage_ok {c8 : List Char} (hlen : c8.length = 8)
    (hall : ∀ c ∈ c8, (hexVal c).isSome = true) :
    ∃ r g b a, parseStage c8 = .ok (r, g, b, a) ∧ r ≤ 255 ∧ g ≤ 255 ∧ b ≤ 255 ∧ a ≤ 255 := by
  have hmem : ∀ k : Nat, k < 8 → c8.getD k ' ' ∈ c8 := by
    intro k hk
    have hk' : k < c8.length := by omega
    have := List.get?_eq_get hk'
    simp only [List.getD, this, Option.getD_some]
    exact List.get_mem _ _ _
  have hp : ∀ i j : Nat, i < 8 → j < 8 →
      ∃ v, parse2 (c8.getD i ' ') (c8.getD j ' ') = some v ∧ v ≤ 255 := by
    intro i j hi hj
    obtain ⟨x, hx⟩ := Option.isSome_iff_exists.mp (hall _ (hmem i hi))
    obtain ⟨y, hy⟩ := Option.isSome_iff_exists.mp (hall _ (hmem j hj))
    refine ⟨16 * x + y, ?_, ?_⟩
    · unfold parse2; rw [hx, hy]
    · have := hexVal_le_15 hx
      have := hexVal_le_15 hy
      omega
  obtain ⟨r, hr, hr255⟩ := hp 0 1 (by omega) (by omega)
  obtain ⟨g, hg, hg255⟩ := hp 2 3 (by omega) (by omega)
  obtain ⟨b, hb, hb255⟩ := hp 4 5 (by omega) (by omega)
  obtain ⟨a, ha, ha255⟩ := hp 6 7 (by omega) (by omega)
  exact ⟨r, g, b, a, by unfold parseStage; rw [hr, hg, hb, ha], hr255, hg255, hb255, ha255⟩

/-- `default_text` of a character (`CharacterDefaultText` in the source).
The float field `r` is modelled as an exact rational. -/
structure CharacterDefaultText : Type where
  text : String
  x : Int
  y : Int
  r : ℚ
  s : Int
deriving DecidableEq

/-- Variant A, `SekaiCharacter`: one primary color. -/
structure SekaiCharacter : Type where
  id : String
  name : String
  character : String
  img : String
  color : String
  default_text : CharacterDefaultText
deriving DecidableEq

/-- Variant B, `ArcaeaCharacter`: separate fill and stroke colors. -/
structure ArcaeaCharacter : Type where
  id : String
  name : String
  character : String
  img : String
  fill_color : String
  stroke_color : String
  default_text : CharacterDefaultText
deriving DecidableEq

/-- `Character = Union[SekaiCharacter, ArcaeaCharacter]` as a sum; the
`isinstance` checks of the source become constructor matches. -/
inductive Character : Type
  | sekai (c : SekaiCharacter)
  | arcaea (c : ArcaeaCharacter)
deriving DecidableEq

def Character.character : Character → String
  | .sekai c => c.character
  | .arcaea c => c.character

def Character.img : Character → String
  | .sekai c => c.img
  | .arcaea c => c.img

def Character.char_name : Character → String
  | .sekai c => c.name
  | .arcaea c => c.name

def Character.default_text : Character → CharacterDefaultText
  | .sekai c => c.default_text
  | .arcaea c => c.default_text

/-- Exceptions the manifest transformer can raise: `IndexError` from `name[0]`
or `chars[0]`, and the `ValueError`s of the color normalizer. -/
inductive TransformError : Type
  | indexError
  | colorError (e : ColorError)
deriving DecidableEq

/-- The value stored by the source in `text_rotate_degrees`:
`math.degrees(x)` applied to the exact rational `x`.  The numeric value it
denotes, `x * 180 / π`, is irrational, so the argument `x` is carried
exactly and interpreted by `DegreeValue.toReal`. -/
structure DegreeValue : Type where
  radians : ℚ
deriving DecidableEq

/-- The real number denoted by a `DegreeValue`: `math.degrees(x) = x * 180 / π`. -/
noncomputable def DegreeValue.toReal (d : DegreeValue) : ℝ :=
  (d.radians : ℝ) * 180 / Real.pi

/-- `StickerParamsOptional` of the consuming plugin: a bag of optional sticker
parameters; `none` models an absent/None field. -/
structure StickerParamsOptional : Type where
  width : Option Nat := none
  height : Option Nat := none
  text_align : Option String := none
  font_style : Option String := none
  font_families : Option (List String) := none
  stroke_color : Option RGBA := none
  stroke_width_factor : Option ℚ := none
  base_image : Option String := none
  text : Option String := none
  text_x : Option Int := none
  text_y : Option Int := none
  text_rotate_degrees : Option DegreeValue := none
  text_color : Option RGBA := none
  font_size : Option Int := none
deriving DecidableEq

/-- `StickerPackConfig()` of the consuming plugin, opaque to this script: it is
only constructed with defaults or carried over unchanged. -/
structure StickerPackConfig : Type where
deriving DecidableEq

/-- `StickerGridSetting()` of the consuming plugin, likewise opaque here. -/
structure StickerGridSetting : Type where
  mk ::
deriving DecidableEq

/-- An external font reference of the manifest; only its `path` is used by the
script. -/
structure ExternalFont : Type where
  path : String
deriving DecidableEq

/-- One sticker entry (`StickerInfoOptionalParams`). -/
structure StickerInfoOptionalParams : Type where
  name : String
  category : String
  params : StickerParamsOptional
deriving DecidableEq

/-- `StickerPackManifest` of the consuming plugin, restricted to the fields the
script reads or writes. -/
structure StickerPackManifest : Type where
  version : Int
  name : String
  description : String
  default_config : StickerPackConfig
  default_sticker_params : StickerParamsOptional
  sticker_grid : StickerGridSetting
  sample_sticker : Option String
  external_fonts : List ExternalFont
  stickers : List StickerInfoOptionalParams
deriving DecidableEq

/-- `normalize_character_name` (source lines 75-76):
`f"{name[0].upper()}{name[1:]}"`; `name[0]` raises `IndexError` on an empty
string. -/
def normalize_character_name (name : String) : Except TransformError String :=
  match name.data with
  | [] => .error .indexError
  | c :: rest => .ok (String.mk (Char.toUpper c :: rest))

/-- `yarl.URL(s).name`: the last `/`-separated segment of the path. -/
def lastSegAux (acc : List Char) : List Char → List Char
  | [] => acc
  | c :: rest => if c = '/' then lastSegAux [] rest else lastSegAux (acc ++ [c]) rest

/-- `URL(char.img).name` of the source, on plain path strings. -/
def urlName (s : String) : String := String.mk (lastSegAux [] s.data)

/-- `to_local_path` (source lines 79-80):
`f"{normalize_character_name(char.character)}/{URL(char.img).name}"`. -/
def to_local_path (char : Character) : Except TransformError String := do
  let n ← normalize_character_name (Character.character char)
  pure (n ++ "/" ++ urlName (Character.img char))

def WIDTH : Nat := 296

def HEIGHT : Nat := 256

def STROKE_COLOR : RGBA := (255, 255, 255, 255)

/-- `STROKE_FACTOR = 9 / 38`, as an exact rational. -/
def STROKE_FACTOR : ℚ := 9 / 38

/-- `mapM` over `Except`, written out structurally: models both the
`asyncio.gather` over download tasks and the sticker list comprehension
(first raised exception aborts, results kept in order). -/
def mapExcept {ε α β : Type} (f : α → Except ε β) : List α → Except ε (List β)
  | [] => .ok []
  | a :: rest => do
    let b ← f a
    let bs ← mapExcept f rest
    pure (b :: bs)

/-- The default `StickerParamsOptional` built by `transform_manifest` when no
prior manifest exists (source lines 161-171); `chars[0]` raises `IndexError`
on an empty list. -/
def defaultStickerParams (chars : List Character) : Except TransformError StickerParamsOptional :=
  match chars with
  | [] => .error .indexError
  | c0 :: _ =>
    .ok { width := some WIDTH
          height := some HEIGHT
          text_align := some "center"
          font_style := some "normal"
          font_families := some []
          stroke_color := match c0 with
            | .sekai _ => some STROKE_COLOR
            | .arcaea _ => none
          stroke_width_factor := some STROKE_FACTOR }

/-- One sticker entry of the comprehension at source lines 179-200. -/
def transformSticker (char : Character) : Except TransformError StickerInfoOptionalParams := do
  let category ← normalize_character_name (Character.character char)
  let base_image ← to_local_path char
  let text_color ← (match char with
    | .sekai c => web_hex_to_color_tuple c.color.data
    | .arcaea c => web_hex_to_color_tuple c.fill_color.data).mapError TransformError.colorError
  let stroke_color ← (match char with
    | .sekai _ => Except.ok none
    | .arcaea c => (web_hex_to_color_tuple c.stroke_color.data).map some).mapError
      TransformError.colorError
  pure { name := Character.char_name char
         category := category
         params := { base_image := some base_image
                     text := some (Character.default_text char).text
                     text_x := some (Character.default_text char).x
                     text_y := some (Character.default_text char).y
                     text_rotate_degrees := some ⟨(Character.default_text char).r / 10⟩
                     text_color := some text_color
                     stroke_color := stroke_color
                     font_size := some (Character.default_text char).s } }

/-- Embedding of `transform_manifest` (source lines 143-203). -/
def transform_manifest (chars : List Character)
    (base_manifest : Option StickerPackManifest := none) :
    Except TransformError StickerPackManifest := do
  let default_sticker_params ← match base_manifest with
    | some m => Except.ok m.default_sticker_params
    | none => defaultStickerParams chars
  let stickers ← mapExcept transformSticker chars
  pure { version := match base_manifest with
           | some m => m.version
           | none => 1
         name := match base_manifest with
           | some m => m.name
           | none => "name"
         description := match base_manifest with
           | some m => m.description
           | none => ""
         default_config := match base_manifest with
           | some m => m.default_config
           | none => {}
         default_sticker_params := default_sticker_params
         sticker_grid := match base_manifest with
           | some m => m.sticker_grid
           | none => {}
         sample_sticker := match base_manifest with
           | some m => m.sample_sticker
           | none => none
         external_fonts := match base_manifest with
           | some m => m.external_fonts
           | none => []
         stickers := stickers }

theorem exbind_ok {ε α β : Type} (a : α) (f : α → Except ε β) :
    (Except.ok a : Except ε α) >>= f = f a := rfl

theorem exbind_error {ε α β : Type} (e : ε) (f : α → Except ε β) :
    (Except.error e : Except ε α) >>= f = .error e := rfl

theorem mapExcept_ok_forall₂ {ε α β : Type} {f : α → Except ε β} :
    ∀ {l : List α} {out : List β}, mapExcept f l = .ok out →
      List.Forall₂ (fun a b => f a = .ok b) l out := by
  intro l
  induction l with
  | nil =>
    intro out h
    simp only [mapExcept, Except.ok.injEq] at h
    subst h
    exact .nil
  | cons x rest ih =>
    intro out h
    simp only [mapExcept] at h
    cases hfx : f x with
    | error e => rw [hfx, exbind_error] at h; exact absurd h (by simp)
    | ok b =>
      rw [hfx, exbind_ok] at h
      cases hrest : mapExcept f rest with
      | error e => rw [hrest, exbind_error] at h; exact absurd h (by simp)
      | ok bs =>
        rw [hrest, exbind_ok] at h
        have : b :: bs = out := by exact Except.ok.inj h
        subst this
        exact List.Forall₂.cons hfx (ih hrest)

theorem mapExcept_ok_of_mem {ε α β : Type} {f : α → Except ε β} {l : List α} {out : List β}
    (h : mapExcept f l = .ok out) {a : α} (ha : a ∈ l) : ∃ b, f a = .ok b := by
  induction l generalizing out with
  | nil => cases ha
  | cons x rest ih =>
    simp only [mapExcept] at h
    cases hfx : f x with
    | error e => rw [hfx, exbind_error] at h; exact absurd h (by simp)
    | ok b =>
      rw [hfx, exbind_ok] at h
      cases hrest : mapExcept f rest with
      | error e => rw [hrest, exbind_error] at h; exact absurd h (by simp)
      | ok bs =>
        rcases List.mem_cons.mp ha with rfl | hmem
        · exact ⟨b, hfx⟩
        · exact ih hrest hmem

theorem mapExcept_error_of_mem {ε α β : Type} {f : α → Except ε β} {l : List α} {a : α}
    (ha : a ∈ l) (hf : exceptOk (f a) = false) : ∃ e, mapExcept f l = .error e := by
  induction l with
  | nil => cases ha
  | cons x rest ih =>
    cases hfx : f x with
    | error e => exact ⟨e, by simp only [mapExcept]; rw [hfx, exbind_error]⟩
    | ok b =>
      rcases List.mem_cons.mp ha with rfl | hmem
      · rw [hfx] at hf; exact absurd hf (by simp [exceptOk])
      · obtain ⟨e, he⟩ := ih hmem
        exact ⟨e, by simp only [mapExcept]; rw [hfx, exbind_ok, he, exbind_error]⟩

theorem transformSticker_ok {char : Character} {st : StickerInfoOptionalParams}
    (h : transformSticker char = .ok st) :
    st.params.text_rotate_degrees = some ⟨(Character.default_text char).r / 10⟩ := by
  unfold transformSticker at h
  cases hn : normalize_character_name (Character.character char) with
  | error e => rw [hn, exbind_error] at h; exact absurd h (by simp)
  | ok category =>
    rw [hn, exbind_ok] at h
    cases hp : to_local_path char with
    | error e => rw [hp, exbind_error] at h; exact absurd h (by simp)
    | ok base_image =>
      rw [hp, exbind_ok] at h
      cases htc : ((match char with
          | .sekai c => web_hex_to_color_tuple c.color.data
          | .arcaea c => web_hex_to_color_tuple c.fill_color.data).mapError
            TransformError.colorError) with
      | error e => rw [htc, exbind_error] at h; exact absurd h (by simp)
      | ok text_color =>
        rw [htc, exbind_ok] at h
        cases hsc : ((match char with
            | .sekai _ => Except.ok none
            | .arcaea c => (web_hex_to_color_tuple c.stroke_color.data).map some).mapError
              TransformError.colorError) with
        | error e => rw [hsc, exbind_error] at h; exact absurd h (by simp)
        | ok stroke_color =>
          rw [hsc, exbind_ok] at h
          have := Except.ok.inj h
          subst this
          rfl

theorem transform_manifest_some_eq {chars : List Character} {m out : StickerPackManifest}
    (h : transform_manifest chars (some m) = .ok out) :
    ∃ stickers, mapExcept transformSticker chars = .ok stickers ∧
      out = { version := m.version
              name := m.name
              description := m.description
              default_config := m.default_config
              default_sticker_params := m.default_sticker_params
              sticker_grid := m.sticker_grid
              sample_sticker := m.sample_sticker
              external_fonts := m.external_fonts
              stickers := stickers } := by
  have h' : (mapExcept transformSticker chars) >>= (fun stickers =>
      (Except.ok { version := m.version
                   name := m.name
                   description := m.description
                   default_config := m.default_config
                   default_sticker_params := m.default_sticker_params
                   sticker_grid := m.sticker_grid
                   sample_sticker := m.sample_sticker
                   external_fonts := m.external_fonts
                   stickers := stickers } : Except TransformError StickerPackManifest)) =
      .ok out := h
  cases hs : mapExcept transformSticker chars with
  | error e => rw [hs, exbind_error] at h'; exact absurd h' (by simp)
  | ok stickers =>
    rw [hs, exbind_ok] at h'
    exact ⟨stickers, rfl, (Except.ok.inj h').symm⟩

theorem transform_manifest_none_eq {chars : List Character} {out : StickerPackManifest}
    (h : transform_manifest chars none = .ok out) :
    ∃ dsp stickers, defaultStickerParams chars = .ok dsp ∧
      mapExcept transformSticker chars = .ok stickers ∧
      out = { version := 1
              name := "name"
              description := ""
              default_config := {}
              default_sticker_params := dsp
              sticker_grid := {}
              sample_sticker := none
              external_fonts := []
              stickers := stickers } := by
  have h' : (defaultStickerParams chars) >>= (fun dsp =>
      (mapExcept transformSticker chars) >>= (fun stickers =>
        (Except.ok { version := 1
                     name := "name"
                     description := ""
                     default_config := {}
                     default_sticker_params := dsp
                     sticker_grid := {}
                     sample_sticker := none
                     external_fonts := []
                     stickers := stickers } : Except TransformError StickerPackManifest))) =
      .ok out := h
  cases hd : defaultStickerParams chars with
  | error e => rw [hd, exbind_error] at h'; exact absurd h' (by simp)
  | ok dsp =>
    rw [hd, exbind_ok] at h'
    cases hs : mapExcept transformSticker chars with
    | error e => rw [hs, exbind_error] at h'; exact absurd h' (by simp)
    | ok stickers =>
      rw [hs, exbind_ok] at h'
      exact ⟨dsp, stickers, rfl, rfl, (Except.ok.inj h').symm⟩

theorem transform_manifest_stickers_eq {chars : List Character}
    {base : Option StickerPackManifest} {out : StickerPackManifest}
    (h : transform_manifest chars base = .ok out) :
    mapExcept transformSticker chars = .ok out.stickers := by
  cases base with
  | some m =>
    obtain ⟨stickers, hs, rfl⟩ := transform_manifest_some_eq h
    exact hs
  | none =>
    obtain ⟨dsp, stickers, _, hs, rfl⟩ := transform_manifest_none_eq h
    exact hs

/-- Projection: the `text_rotate_degrees` value stored in sticker `i` of a
transform result. -/
def stickerRotationValue (r : Except TransformError StickerPackManifest) (i : Nat) :
    Option DegreeValue :=
  match r with
  | .ok m => m.stickers[i]?.bind fun st => st.params.text_rotate_degrees
  | .error _ => none

/-- The real number (in degrees) stored in sticker `i` of a transform result. -/
noncomputable def stickerRotationReal (r : Except TransformError StickerPackManifest)
    (i : Nat) : Option ℝ :=
  (stickerRotationValue r i).map DegreeValue.toReal

/-- Projection: the version of a transform result. -/
def manifestVersionOf (r : Except TransformError StickerPackManifest) : Option Int :=
  match r with
  | .ok m => some m.version
  | .error _ => none

/-- Projection: the external font list of a transform result. -/
def manifestFontsOf (r : Except TransformError StickerPackManifest) :
    Option (List ExternalFont) :=
  match r with
  | .ok m => some m.external_fonts
  | .error _ => none

/-- Projection: the default sticker parameters of a transform result. -/
def manifestDefaultParamsOf (r : Except TransformError StickerPackManifest) :
    Option StickerParamsOptional :=
  match r with
  | .ok m => some m.default_sticker_params
  | .error _ => none

/-- Projection: the default `stroke_width_factor` of a transform result. -/
def manifestDefaultSWFOf (r : Except TransformError StickerPackManifest) : Option ℚ :=
  match r with
  | .ok m => m.default_sticker_params.stroke_width_factor
  | .error _ => none

/-- A concrete variant-A character whose `default_text.r` is `10`, used to
evaluate the transformer on concrete input. -/
def c1Char : Character := .sekai
  { id := "1", name := "n", character := "miku", img := "a.png", color := "FFF",
    default_text := { text := "t", x := 1, y := 2, r := 10, s := 3 } }

/-- C1, counterexample: for the character `c1Char` with rotation field
`r = 10`, the produced `text_rotate_degrees` is NOT `r / 10 = 1`: the source
applies `math.degrees` to `r / 10`, so the stored value is `(r / 10) * 180 / π`
degrees, not `r / 10`. -/
theorem c1_counterexample :
    stickerRotationReal (transform_manifest [c1Char] none) 0 ≠ some (((10 : ℚ) : ℝ) / 10) := by
  have hv : stickerRotationValue (transform_manifest [c1Char] none) 0 =
      some ⟨(10 : ℚ) / 10⟩ := rfl
  intro heq
  rw [stickerRotationReal, hv, Option.map_some'] at heq
  rw [Option.some_inj, DegreeValue.toReal] at heq
  have hpi : (0 : ℝ) < Real.pi := Real.pi_pos
  have hpi2 : Real.pi < 3.15 := Real.pi_lt_d2
  rw [div_eq_iff (ne_of_gt hpi)] at heq
  push_cast at heq
  nlinarith

/-- C1, amended: for every character in the list, the sticker produced by the
manifest transformer stores a text rotation of `math.degrees(r / 10)`, i.e.
`(r / 10) * 180 / π` degrees, where `r` is the character's rotation field. -/
theorem c1_text_rotation (chars : List Character) (base : Option StickerPackManifest)
    (h : exceptOk (transform_manifest chars base) = true)
    (i : Nat) (hi : i < chars.length) :
    stickerRotationReal (transform_manifest chars base) i =
      some (((Character.default_text (chars.get ⟨i, hi⟩)).r : ℝ) / 10 * 180 / Real.pi) := by
  cases heq : transform_manifest chars base with
  | error e => rw [heq] at h; exact absurd h (by simp [exceptOk])
  | ok out =>
    have hs := transform_manifest_stickers_eq heq
    have hfa := mapExcept_ok_forall₂ hs
    obtain ⟨hlen, hget⟩ := List.forall₂_iff_get.mp hfa
    have hi' : i < out.stickers.length := by omega
    have hst := transformSticker_ok (hget i hi hi')
    rw [stickerRotationReal]
    show ((out.stickers[i]?.bind fun st => st.params.text_rotate_degrees).map
      DegreeValue.toReal) = _
    rw [List.getElem?_eq_getElem hi']
    rw [show (some out.stickers[i]).bind (fun st => st.params.text_rotate_degrees) =
      (out.stickers.get ⟨i, hi'⟩).params.text_rotate_degrees from rfl]
    rw [hst, Option.map_some']
    rw [Option.some_inj, DegreeValue.toReal]
    push_cast
    ring

/-- Witness for `c1_text_rotation` at the concrete input `[c1Char]`. -/
theorem c1_text_rotation_witness :
    exceptOk (transform_manifest [c1Char] none) = true ∧
    stickerRotationReal (transform_manifest [c1Char] none) 0 =
      some (((10 : ℚ) : ℝ) / 10 * 180 / Real.pi) :=
  ⟨by decide, c1_text_rotation [c1Char] none (by decide) 0 (by decide)⟩

/-- C10: with no prior manifest, the manifest transformer on the empty
character list evaluates `chars[0]` and raises `IndexError` instead of
producing a manifest. -/
theorem c10_empty_chars_index_error :
    transform_manifest [] none = .error TransformError.indexError := rfl

/-- C5: when a prior manifest is given, the produced manifest's version is the
prior version unchanged (no auto-increment) and its external font list is the
prior list unchanged, for every character list on which the transform
succeeds. -/
theorem c5_version_fonts_carry_over (chars : List Character) (m : StickerPackManifest)
    (h : exceptOk (transform_manifest chars (some m)) = true) :
    manifestVersionOf (transform_manifest chars (some m)) = some m.version ∧
    manifestFontsOf (transform_manifest chars (some m)) = some m.external_fonts := by
  cases heq : transform_manifest chars (some m) with
  | error e => rw [heq] at h; exact absurd h (by simp [exceptOk])
  | ok out =>
    obtain ⟨stickers, hs, rfl⟩ := transform_manifest_some_eq heq
    exact ⟨rfl, rfl⟩

/-- A prior manifest with `version = 3` and a nonempty font list, used to
evaluate carry-over on concrete input. -/
def c5Prior : StickerPackManifest :=
  { version := 3
    name := "pack"
    description := "d"
    default_config := {}
    default_sticker_params := {}
    sticker_grid := {}
    sample_sticker := none
    external_fonts := [⟨"fonts/a.ttf"⟩]
    stickers := [] }

/-- Witness for `c5_version_fonts_carry_over`: version 3 stays 3 and the font
list is carried over unchanged. -/
theorem c5_version_fonts_carry_over_witness :
    exceptOk (transform_manifest [c1Char] (some c5Prior)) = true ∧
    manifestVersionOf (transform_manifest [c1Char] (some c5Prior)) = some c5Prior.version ∧
    manifestFontsOf (transform_manifest [c1Char] (some c5Prior)) = some c5Prior.external_fonts :=
  ⟨by decide, c5_version_fonts_carry_over [c1Char] c5Prior (by decide)⟩

/-- A concrete variant-B (Arcaea-like) character, used to evaluate the default
parameters on concrete input. -/
def c3ArcChar : Character := .arcaea
  { id := "1", name := "n", character := "hikari", img := "a.png", fill_color := "FFF",
    stroke_color := "000", default_text := { text := "t", x := 1, y := 2, r := 0, s := 3 } }

/-- C3, counterexample: for a variant-B (Arcaea-like) character list the
default sticker parameters DO set the fixed stroke-width factor `9 / 38`
(the source sets `stroke_width_factor=STROKE_FACTOR` unconditionally),
contradicting the claim that neither default stroke field is set for
variant B. -/
theorem c3_counterexample :
    manifestDefaultSWFOf (transform_manifest [c3ArcChar] none) = some (9 / 38 : ℚ) ∧
    manifestDefaultSWFOf (transform_manifest [c3ArcChar] none) ≠ none := by
  constructor
  · rfl
  · rw [show manifestDefaultSWFOf (transform_manifest [c3ArcChar] none) =
      some (9 / 38 : ℚ) from rfl]
    simp

/-- C3, amended: with no prior manifest the default sticker parameters use the
fixed width/height, centered text alignment, normal font style and no font
families for every input; the fixed white stroke color is set exactly when the
list is variant-A-shaped (and unset for variant B), while the fixed
stroke-width factor `9 / 38` is set for BOTH variants. -/
theorem c3_default_params (chars : List Character)
    (h : exceptOk (transform_manifest chars none) = true) :
    ∃ p, manifestDefaultParamsOf (transform_manifest chars none) = some p ∧
      p.width = some WIDTH ∧ p.height = some HEIGHT ∧ p.text_align = some "center" ∧
      p.font_style = some "normal" ∧ p.font_families = some [] ∧
      p.stroke_width_factor = some STROKE_FACTOR ∧
      (∀ c rest, chars = Character.sekai c :: rest → p.stroke_color = some STROKE_COLOR) ∧
      (∀ c rest, chars = Character.arcaea c :: rest → p.stroke_color = none) := by
  cases heq : transform_manifest chars none with
  | error e => rw [heq] at h; exact absurd h (by simp [exceptOk])
  | ok out =>
    obtain ⟨dsp, stickers, hd, hs, rfl⟩ := transform_manifest_none_eq heq
    cases chars with
    | nil => exact absurd hd (by simp [defaultStickerParams])
    | cons c0 rest0 =>
      simp only [defaultStickerParams, Except.ok.injEq] at hd
      refine ⟨dsp, rfl, ?_⟩
      subst hd
      refine ⟨rfl, rfl, rfl, rfl, rfl, rfl, ?_, ?_⟩
      · intro c rest hch
        obtain ⟨hc0, -⟩ := List.cons.inj hch
        subst hc0
        rfl
      · intro c rest hch
        obtain ⟨hc0, -⟩ := List.cons.inj hch
        subst hc0
        rfl

/-- Witness for `c3_default_params` at a concrete variant-B input. -/
theorem c3_default_params_witness :
    exceptOk (transform_manifest [c3ArcChar] none) = true ∧
    (∃ p, manifestDefaultParamsOf (transform_manifest [c3ArcChar] none) = some p ∧
      p.width = some WIDTH ∧ p.height = some HEIGHT ∧ p.text_align = some "center" ∧
      p.font_style = some "normal" ∧ p.font_families = some [] ∧
      p.stroke_width_factor = some STROKE_FACTOR ∧
      (∀ c rest, [c3ArcChar] = Character.sekai c :: rest → p.stroke_color = some STROKE_COLOR) ∧
      (∀ c rest, [c3ArcChar] = Character.arcaea c :: rest → p.stroke_color = none)) :=
  ⟨by decide, c3_default_params [c3ArcChar] (by decide)⟩

theorem parse2_eq {a b : Char} {x y : Nat} (ha : hexVal a = some x) (hb : hexVal b = some y) :
    parse2 a b = some (16 * x + y) := by
  unfold parse2
  rw [ha, hb]

theorem removeHashHead_of_ne {c : Char} (l : List Char) (h : c ≠ '#') :
    removeHashHead (c :: l) = c :: l := by
  simp [removeHashHead, h]

theorem removeHashHead_hash (l : List Char) : removeHashHead ('#' :: l) = l := by
  simp [removeHashHead]

theorem normalizeHexDigits3 (a b c : Char) :
    normalizeHexDigits [a, b, c] = .ok [a, a, b, b, c, c, 'F', 'F'] := rfl

theorem normalizeHexDigits4 (a b c d : Char) :
    normalizeHexDigits [a, b, c, d] = .ok [b, b, c, c, d, d, a, a] := rfl

theorem normalizeHexDigits6 (a b c d e f : Char) :
    normalizeHexDigits [a, b, c, d, e, f] = .ok [a, b, c, d, e, f, 'F', 'F'] := rfl

theorem normalizeHexDigits8 (a b c d e f g h : Char) :
    normalizeHexDigits [a, b, c, d, e, f, g, h] = .ok [c, d, e, f, g, h, a, b] := rfl

theorem parseStage_eq (a b c d e f g h : Char) {r g' b' a' : Nat}
    (h1 : parse2 a b = some r) (h2 : parse2 c d = some g')
    (h3 : parse2 e f = some b') (h4 : parse2 g h = some a') :
    parseStage [a, b, c, d, e, f, g, h] = .ok (r, g', b', a') := by
  have hps : parseStage [a, b, c, d, e, f, g, h] =
      match parse2 a b, parse2 c d, parse2 e f, parse2 g h with
      | some r, some g', some b', some a' => .ok (r, g', b', a')
      | _, _, _, _ => .error .invalidDigit := rfl
  rw [hps, h1, h2, h3, h4]

/-- C2, counterexample: on the 4-digit input "1234" the color normalizer reads
the FIRST digit as alpha (ARGB), returning `(22, 33, 44, 11)` hex =
`(34, 51, 68, 17)`, not the claimed `(11, 22, 33, 44)` hex =
`(17, 34, 51, 68)`. -/
theorem c2_counterexample :
    web_hex_to_color_tuple ['1', '2', '3', '4'] = .ok (34, 51, 68, 17) ∧
    web_hex_to_color_tuple ['1', '2', '3', '4'] ≠ .ok (17, 34, 51, 68) := by
  exact ⟨by decide, by decide⟩

/-- C2, amended: for hex digits `d1 … d8` with values `v1 … v8`: a 3-digit
input gives `(17·v1, 17·v2, 17·v3, 255)`; a 4-digit input (with or without a
leading `#`) is read as ARGB — the FIRST digit duplicated is the alpha and the
remaining three duplicated are R, G, B, giving `(17·v2, 17·v3, 17·v4, 17·v1)`;
a 6-digit input appends full alpha; an 8-digit input is read as ARGB and
reordered to RGBA. -/
theorem c2_expansion_rules
    (c1 c2 c3 c4 c5 c6 c7 c8 : Char) (v1 v2 v3 v4 v5 v6 v7 v8 : Nat)
    (m1 : c1 ∈ hexDigitChars) (m2 : c2 ∈ hexDigitChars) (m3 : c3 ∈ hexDigitChars)
    (m4 : c4 ∈ hexDigitChars) (m5 : c5 ∈ hexDigitChars) (m6 : c6 ∈ hexDigitChars)
    (m7 : c7 ∈ hexDigitChars) (m8 : c8 ∈ hexDigitChars)
    (h1 : hexVal c1 = some v1) (h2 : hexVal c2 = some v2) (h3 : hexVal c3 = some v3)
    (h4 : hexVal c4 = some v4) (h5 : hexVal c5 = some v5) (h6 : hexVal c6 = some v6)
    (h7 : hexVal c7 = some v7) (h8 : hexVal c8 = some v8) :
    web_hex_to_color_tuple [c1, c2, c3] = .ok (17 * v1, 17 * v2, 17 * v3, 255) ∧
    web_hex_to_color_tuple [c1, c2, c3, c4] = .ok (17 * v2, 17 * v3, 17 * v4, 17 * v1) ∧
    web_hex_to_color_tuple ['#', c1, c2, c3, c4] = .ok (17 * v2, 17 * v3, 17 * v4, 17 * v1) ∧
    web_hex_to_color_tuple [c1, c2, c3, c4, c5, c6] =
      .ok (16 * v1 + v2, 16 * v3 + v4, 16 * v5 + v6, 255) ∧
    web_hex_to_color_tuple [c1, c2, c3, c4, c5, c6, c7, c8] =
      .ok (16 * v3 + v4, 16 * v5 + v6, 16 * v7 + v8, 16 * v1 + v2) := by
  have u1 := (hexVal_toUpper_of_mem c1 m1).trans h1
  have u2 := (hexVal_toUpper_of_mem c2 m2).trans h2
  have u3 := (hexVal_toUpper_of_mem c3 m3).trans h3
  have u4 := (hexVal_toUpper_of_mem c4 m4).trans h4
  have u5 := (hexVal_toUpper_of_mem c5 m5).trans h5
  have u6 := (hexVal_toUpper_of_mem c6 m6).trans h6
  have u7 := (hexVal_toUpper_of_mem c7 m7).trans h7
  have u8 := (hexVal_toUpper_of_mem c8 m8).trans h8
  have n1 := toUpper_ne_hash_of_mem c1 m1
  have hFF : parse2 'F' 'F' = some 255 := by decide
  have h17 : ∀ x : Nat, 16 * x + x = 17 * x := fun x => by omega
  refine ⟨?_, ?_, ?_, ?_, ?_⟩
  · unfold web_hex_to_color_tuple
    rw [List.map_cons, List.map_cons, List.map_cons, List.map_nil,
        removeHashHead_of_ne _ n1, normalizeHexDigits3]
    show parseStage [Char.toUpper c1, Char.toUpper c1, Char.toUpper c2, Char.toUpper c2,
      Char.toUpper c3, Char.toUpper c3, 'F', 'F'] = _
    rw [parseStage_eq _ _ _ _ _ _ _ _ (parse2_eq u1 u1) (parse2_eq u2 u2)
        (parse2_eq u3 u3) hFF]
    rw [h17, h17, h17]
  · unfold web_hex_to_color_tuple
    rw [List.map_cons, List.map_cons, List.map_cons, List.map_cons, List.map_nil,
        removeHashHead_of_ne _ n1, normalizeHexDigits4]
    show parseStage [Char.toUpper c2, Char.toUpper c2, Char.toUpper c3, Char.toUpper c3,
      Char.toUpper c4, Char.toUpper c4, Char.toUpper c1, Char.toUpper c1] = _
    rw [parseStage_eq _ _ _ _ _ _ _ _ (parse2_eq u2 u2) (parse2_eq u3 u3)
        (parse2_eq u4 u4) (parse2_eq u1 u1)]
    rw [h17, h17, h17, h17]
  · unfold web_hex_to_color_tuple
    rw [List.map_cons, List.map_cons, List.map_cons, List.map_cons, List.map_cons,
        List.map_nil, show Char.toUpper '#' = '#' from rfl, removeHashHead_hash,
        normalizeHexDigits4]
    show parseStage [Char.toUpper c2, Char.toUpper c2, Char.toUpper c3, Char.toUpper c3,
      Char.toUpper c4, Char.toUpper c4, Char.toUpper c1, Char.toUpper c1] = _
    rw [parseStage_eq _ _ _ _ _ _ _ _ (parse2_eq u2 u2) (parse2_eq u3 u3)
        (parse2_eq u4 u4) (parse2_eq u1 u1)]
    rw [h17, h17, h17, h17]
  · unfold web_hex_to_color_tuple
    rw [List.map_cons, List.map_cons, List.map_cons, List.map_cons, List.map_cons,
        List.map_cons, List.map_nil, removeHashHead_of_ne _ n1, normalizeHexDigits6]
    show parseStage [Char.toUpper c1, Char.toUpper c2, Char.toUpper c3, Char.toUpper c4,
      Char.toUpper c5, Char.toUpper c6, 'F', 'F'] = _
    rw [parseStage_eq _ _ _ _ _ _ _ _ (parse2_eq u1 u2) (parse2_eq u3 u4)
        (parse2_eq u5 u6) hFF]
  · unfold web_hex_to_color_tuple
    rw [List.map_cons, List.map_cons, List.map_cons, List.map_cons, List.map_cons,
        List.map_cons, List.map_cons, List.map_cons, List.map_nil,
        removeHashHead_of_ne _ n1, normalizeHexDigits8]
    show parseStage [Char.toUpper c3, Char.toUpper c4, Char.toUpper c5, Char.toUpper c6,
      Char.toUpper c7, Char.toUpper c8, Char.toUpper c1, Char.toUpper c2] = _
    rw [parseStage_eq _ _ _ _ _ _ _ _ (parse2_eq u3 u4) (parse2_eq u5 u6)
        (parse2_eq u7 u8) (parse2_eq u1 u2)]

/-- Witness for `c2_expansion_rules` on the digits `1 2 3 4 5 6 7 8`. -/
theorem c2_expansion_rules_witness :
    ('1' ∈ hexDigitChars ∧ hexVal '1' = some 1) ∧
    web_hex_to_color_tuple ['1', '2', '3'] = .ok (17 * 1, 17 * 2, 17 * 3, 255) ∧
    web_hex_to_color_tuple ['1', '2', '3', '4'] = .ok (17 * 2, 17 * 3, 17 * 4, 17 * 1) ∧
    web_hex_to_color_tuple ['#', '1', '2', '3', '4'] = .ok (17 * 2, 17 * 3, 17 * 4, 17 * 1) ∧
    web_hex_to_color_tuple ['1', '2', '3', '4', '5', '6'] =
      .ok (16 * 1 + 2, 16 * 3 + 4, 16 * 5 + 6, 255) ∧
    web_hex_to_color_tuple ['1', '2', '3', '4', '5', '6', '7', '8'] =
      .ok (16 * 3 + 4, 16 * 5 + 6, 16 * 7 + 8, 16 * 1 + 2) :=
  ⟨⟨by decide, by decide⟩,
   c2_expansion_rules '1' '2' '3' '4' '5' '6' '7' '8' 1 2 3 4 5 6 7 8
     (by decide) (by decide) (by decide) (by decide) (by decide) (by decide)
     (by decide) (by decide) (by decide) (by decide) (by decide) (by decide)
     (by decide) (by decide) (by decide) (by decide)⟩

/-- C7: for every hex-digit string (optionally preceded by `#`), the color
normalizer fails with the invalid-format `ValueError` exactly when the digit
count is not 3, 4, 6 or 8; for digit counts 3, 4, 6 and 8 it never raises and
returns four integers in `[0, 255]`. -/
theorem c7_color_error_iff (cs : List Char) (hhex : ∀ c ∈ cs, c ∈ hexDigitChars)
    (input : List Char) (hin : input = cs ∨ input = '#' :: cs) :
    (web_hex_to_color_tuple input = .error ColorError.invalidFormat ↔
      ¬(cs.length = 3 ∨ cs.length = 4 ∨ cs.length = 6 ∨ cs.length = 8)) ∧
    ((cs.length = 3 ∨ cs.length = 4 ∨ cs.length = 6 ∨ cs.length = 8) →
      ∃ r g b a, web_hex_to_color_tuple input = .ok (r, g, b, a) ∧
        r ≤ 255 ∧ g ≤ 255 ∧ b ≤ 255 ∧ a ≤ 255) := by
  have hstrip : removeHashHead (input.map Char.toUpper) = cs.map Char.toUpper := by
    rcases hin with h | h <;> subst h
    · cases input with
      | nil => rfl
      | cons c rest =>
        rw [List.map_cons]
        exact removeHashHead_of_ne _ (toUpper_ne_hash_of_mem c (hhex c (by simp)))
    · rw [List.map_cons, show Char.toUpper '#' = '#' from rfl, removeHashHead_hash]
  have hlenm : (cs.map Char.toUpper).length = cs.length := List.length_map _ _
  by_cases hlen : cs.length = 3 ∨ cs.length = 4 ∨ cs.length = 6 ∨ cs.length = 8
  · obtain ⟨c8, hc8⟩ := normalizeHexDigits_isOk (l := cs.map Char.toUpper)
      (by rw [hlenm]; exact hlen)
    obtain ⟨hlen8, hmem⟩ := normalizeHexDigits_ok hc8
    have hall : ∀ c ∈ c8, (hexVal c).isSome = true := by
      intro c hc
      rcases hmem c hc with hc' | rfl
      · obtain ⟨c0, hc0, rfl⟩ := List.mem_map.mp hc'
        rw [hexVal_toUpper_of_mem c0 (hhex c0 hc0)]
        exact hexVal_isSome_of_mem c0 (hhex c0 hc0)
      · rfl
    obtain ⟨r, g, b, a, hps, hr, hg, hb, ha⟩ := parseStage_ok hlen8 hall
    have hred : web_hex_to_color_tuple input = parseStage c8 := by
      unfold web_hex_to_color_tuple
      rw [hstrip, hc8]
    refine ⟨?_, fun _ => ⟨r, g, b, a, by rw [hred]; exact hps, hr, hg, hb, ha⟩⟩
    rw [hred, hps]
    exact iff_of_false (by simp) (not_not_intro hlen)
  · have herr : normalizeHexDigits (cs.map Char.toUpper) = .error .invalidFormat :=
      normalizeHexDigits_error (by rw [hlenm]; exact hlen)
    have hred : web_hex_to_color_tuple input = .error ColorError.invalidFormat := by
      unfold web_hex_to_color_tuple
      rw [hstrip, herr]
    exact ⟨by rw [hred]; exact iff_of_true rfl hlen, fun hl => absurd hl hlen⟩

/-- Witness for `c7_color_error_iff`: the 3-digit string "F0A" (and "#F0A")
parses; the bad-length side of the iff is inspectable at this input. -/
theorem c7_color_error_iff_witness :
    (∀ c ∈ (['F', '0', 'A'] : List Char), c ∈ hexDigitChars) ∧
    ((web_hex_to_color_tuple ['F', '0', 'A'] = .error ColorError.invalidFormat ↔
      ¬((['F', '0', 'A'] : List Char).length = 3 ∨ (['F', '0', 'A'] : List Char).length = 4 ∨
        (['F', '0', 'A'] : List Char).length = 6 ∨ (['F', '0', 'A'] : List Char).length = 8)) ∧
     (((['F', '0', 'A'] : List Char).length = 3 ∨ (['F', '0', 'A'] : List Char).length = 4 ∨
        (['F', '0', 'A'] : List Char).length = 6 ∨ (['F', '0', 'A'] : List Char).length = 8) →
      ∃ r g b a, web_hex_to_color_tuple ['F', '0', 'A'] = .ok (r, g, b, a) ∧
        r ≤ 255 ∧ g ≤ 255 ∧ b ≤ 255 ∧ a ≤ 255)) :=
  ⟨by decide, c7_color_error_iff ['F', '0', 'A'] (by decide) ['F', '0', 'A'] (Or.inl rfl)⟩

/-- Modelled from the spec: the canonical formatting of one hex digit value
(`0`-`15`) as an uppercase hex character, used to "format the normalized RGBA
tuple back as a 6-digit hex string". -/
def hexChar (n : Nat) : Char :=
  if n < 10 then Char.ofNat (48 + n) else Char.ofNat (55 + n)

/-- Modelled from the spec: one byte as two uppercase hex characters. -/
def hexByte (n : Nat) : List Char := [hexChar (n / 16), hexChar (n % 16)]

/-- Modelled from the spec: an RGB triple formatted back as a 6-digit hex
string (implicit full alpha). -/
def toHex6 (r g b : Nat) : List Char := hexByte r ++ hexByte g ++ hexByte b

theorem toUpper_hexChar : ∀ d, d < 16 → Char.toUpper (hexChar d) = hexChar d := by decide

theorem hexVal_hexChar : ∀ d, d < 16 → hexVal (hexChar d) = some d := by decide

theorem hexChar_ne_hash : ∀ d, d < 16 → hexChar d ≠ '#' := by decide

theorem web_hex_ok_le {cs : List Char} {r g b a : Nat}
    (h : web_hex_to_color_tuple cs = .ok (r, g, b, a)) :
    r ≤ 255 ∧ g ≤ 255 ∧ b ≤ 255 ∧ a ≤ 255 := by
  unfold web_hex_to_color_tuple at h
  cases hn : normalizeHexDigits (removeHashHead (cs.map Char.toUpper)) with
  | error e => rw [hn] at h; exact absurd h (by simp)
  | ok c8 =>
    rw [hn] at h
    have h' : parseStage c8 = .ok (r, g, b, a) := h
    unfold parseStage at h'
    split at h'
    · next x1 x2 x3 x4 e1 e2 e3 e4 =>
      have heq4 := Except.ok.inj h'
      simp only [Prod.mk.injEq] at heq4
      obtain ⟨hx1, hx2, hx3, hx4⟩ := heq4
      exact ⟨hx1 ▸ parse2_le_255 e1, hx2 ▸ parse2_le_255 e2,
             hx3 ▸ parse2_le_255 e3, hx4 ▸ parse2_le_255 e4⟩
    · exact absurd h' (by simp)

theorem web_hex_toHex6 {r g b : Nat} (hr : r ≤ 255) (hg : g ≤ 255) (hb : b ≤ 255) :
    web_hex_to_color_tuple (toHex6 r g b) = .ok (r, g, b, 255) := by
  have d1 : r / 16 < 16 := by omega
  have d2 : r % 16 < 16 := by omega
  have d3 : g / 16 < 16 := by omega
  have d4 : g % 16 < 16 := by omega
  have d5 : b / 16 < 16 := by omega
  have d6 : b % 16 < 16 := by omega
  have hlist : toHex6 r g b = [hexChar (r / 16), hexChar (r % 16), hexChar (g / 16),
      hexChar (g % 16), hexChar (b / 16), hexChar (b % 16)] := rfl
  unfold web_hex_to_color_tuple
  rw [hlist, List.map_cons, List.map_cons, List.map_cons, List.map_cons, List.map_cons,
      List.map_cons, List.map_nil, toUpper_hexChar _ d1, toUpper_hexChar _ d2,
      toUpper_hexChar _ d3, toUpper_hexChar _ d4, toUpper_hexChar _ d5, toUpper_hexChar _ d6,
      removeHashHead_of_ne _ (hexChar_ne_hash _ d1), normalizeHexDigits6]
  show parseStage [hexChar (r / 16), hexChar (r % 16), hexChar (g / 16), hexChar (g % 16),
    hexChar (b / 16), hexChar (b % 16), 'F', 'F'] = _
  rw [parseStage_eq _ _ _ _ _ _ _ _
      (parse2_eq (hexVal_hexChar _ d1) (hexVal_hexChar _ d2))
      (parse2_eq (hexVal_hexChar _ d3) (hexVal_hexChar _ d4))
      (parse2_eq (hexVal_hexChar _ d5) (hexVal_hexChar _ d6))
      (by decide : parse2 'F' 'F' = some 255)]
  rw [Nat.div_add_mod r 16, Nat.div_add_mod g 16, Nat.div_add_mod b 16]

/-- C8, counterexample: normalization is NOT idempotent through the 6-digit
reformatting when the first normalization's alpha is not 255: "0FFF" (4-digit,
read as ARGB) normalizes to `(255, 255, 255, 0)`, but re-normalizing its RGB
part reformatted as "FFFFFF" yields `(255, 255, 255, 255)`, a different RGBA
tuple. -/
theorem c8_counterexample :
    web_hex_to_color_tuple "0FFF".data = .ok (255, 255, 255, 0) ∧
    web_hex_to_color_tuple (toHex6 255 255 255) = .ok (255, 255, 255, 255) ∧
    web_hex_to_color_tuple (toHex6 255 255 255) ≠ .ok (255, 255, 255, 0) :=
  ⟨by decide, by decide, by decide⟩

/-- C8, amended: for every valid input color, re-normalizing the first
normalization's R, G, B reformatted as a 6-digit hex string yields the same
R, G, B with full alpha `255`; in particular it yields the same RGBA tuple
exactly on inputs whose normalized alpha is already 255. -/
theorem c8_renormalization (cs : List Char) (r g b a : Nat)
    (h : web_hex_to_color_tuple cs = .ok (r, g, b, a)) :
    web_hex_to_color_tuple (toHex6 r g b) = .ok (r, g, b, 255) ∧
    (a = 255 → web_hex_to_color_tuple (toHex6 r g b) = .ok (r, g, b, a)) := by
  obtain ⟨hr, hg, hb, -⟩ := web_hex_ok_le h
  have hrt := web_hex_toHex6 hr hg hb
  exact ⟨hrt, fun ha => ha ▸ hrt⟩

/-- Witness for `c8_renormalization` at the concrete input "FFF". -/
theorem c8_renormalization_witness :
    web_hex_to_color_tuple "FFF".data = .ok (255, 255, 255, 255) ∧
    (web_hex_to_color_tuple (toHex6 255 255 255) = .ok (255, 255, 255, 255) ∧
     ((255 : Nat) = 255 →
       web_hex_to_color_tuple (toHex6 255 255 255) = .ok (255, 255, 255, 255))) :=
  ⟨by decide, c8_renormalization "FFF".data 255 255 255 255 (by decide)⟩

theorem lastSegAux_no_slash {l : List Char} :
    ∀ {acc : List Char}, '/' ∉ acc → '/' ∉ lastSegAux acc l := by
  induction l with
  | nil => intro acc hacc; exact hacc
  | cons c rest ih =>
    intro acc hacc
    by_cases hc : c = '/'
    · simp only [lastSegAux, hc, if_pos rfl]
      exact ih (by simp)
    · simp only [lastSegAux, if_neg hc]
      refine ih ?_
      intro hmem
      rcases List.mem_append.mp hmem with h | h
      · exact hacc h
      · simp only [List.mem_cons, List.not_mem_nil, or_false] at h
        exact hc h.symm

theorem urlName_no_slash (s : String) : '/' ∉ (urlName s).data := by
  unfold urlName
  exact lastSegAux_no_slash (by simp)

theorem string_data_append (s t : String) : (s ++ t).data = s.data ++ t.data := by
  cases s; cases t; rfl

theorem string_data_inj {s t : String} (h : s.data = t.data) : s = t := by
  cases s; cases t
  exact congrArg String.mk h

/-- C9: two characters with the same category name and different image
filenames get different local paths, both of the form
`<normalized category>/<filename>` under the same normalized-category
directory (the filename contains no `/`). -/
theorem c9_local_paths (ch1 ch2 : Character)
    (hcat : Character.character ch1 = Character.character ch2)
    (himg : urlName (Character.img ch1) ≠ urlName (Character.img ch2))
    (p1 p2 : String) (h1 : to_local_path ch1 = .ok p1) (h2 : to_local_path ch2 = .ok p2) :
    p1 ≠ p2 ∧ ∃ ncat,
      normalize_character_name (Character.character ch1) = .ok ncat ∧
      p1 = ncat ++ "/" ++ urlName (Character.img ch1) ∧
      p2 = ncat ++ "/" ++ urlName (Character.img ch2) ∧
      '/' ∉ (urlName (Character.img ch1)).data ∧
      '/' ∉ (urlName (Character.img ch2)).data := by
  unfold to_local_path at h1 h2
  cases hn : normalize_character_name (Character.character ch1) with
  | error e =>
    rw [hn, exbind_error] at h1
    exact absurd h1 (by simp)
  | ok ncat =>
    rw [hn, exbind_ok] at h1
    have hn2 : normalize_character_name (Character.character ch2) = .ok ncat := by
      rw [← hcat]; exact hn
    rw [hn2, exbind_ok] at h2
    have hp1 : p1 = ncat ++ "/" ++ urlName (Character.img ch1) := (Except.ok.inj h1).symm
    have hp2 : p2 = ncat ++ "/" ++ urlName (Character.img ch2) := (Except.ok.inj h2).symm
    refine ⟨?_, ncat, rfl, hp1, hp2, urlName_no_slash _, urlName_no_slash _⟩
    intro hpp
    apply himg
    rw [hp1, hp2] at hpp
    have hd := congrArg String.data hpp
    rw [string_data_append, string_data_append, string_data_append, string_data_append] at hd
    rw [List.append_assoc, List.append_assoc] at hd
    have := List.append_cancel_left hd
    exact string_data_inj (List.append_cancel_left this)

/-- A second character in the same category with a different image, for the
concrete evaluation of `c9_local_paths`. -/
def c9OtherChar : Character := .sekai
  { id := "2", name := "n2", character := "miku", img := "b.png", color := "FFF",
    default_text := { text := "t", x := 1, y := 2, r := 0, s := 3 } }

/-- Witness for `c9_local_paths`: "miku"-category characters with images
`a.png` and `b.png` map to `Miku/a.png` and `Miku/b.png`. -/
theorem c9_local_paths_witness :
    to_local_path c1Char = .ok "Miku/a.png" ∧ to_local_path c9OtherChar = .ok "Miku/b.png" ∧
    ("Miku/a.png" : String) ≠ "Miku/b.png" ∧ (∃ ncat,
      normalize_character_name (Character.character c1Char) = .ok ncat ∧
      ("Miku/a.png" : String) = ncat ++ "/" ++ urlName (Character.img c1Char) ∧
      ("Miku/b.png" : String) = ncat ++ "/" ++ urlName (Character.img c9OtherChar) ∧
      '/' ∉ (urlName (Character.img c1Char)).data ∧
      '/' ∉ (urlName (Character.img c9OtherChar)).data) :=
  ⟨by decide, by decide, by decide,
   (c9_local_paths c1Char c9OtherChar (by decide) (by decide) "Miku/a.png" "Miku/b.png"
     (by decide) (by decide)).2⟩

/-- Python string comparison (`<` by code points, shorter prefix first), on
character lists. -/
def charsLt : List Char → List Char → Bool
  | [], [] => false
  | [], _ :: _ => true
  | _ :: _, [] => false
  | a :: as, b :: bs => if a < b then true else if b < a then false else charsLt as bs

/-- Python list-of-strings comparison `x <= y`, as used implicitly by
`sorted(..., key=lambda x: x[0].split("/"))`. -/
def segLe : List (List Char) → List (List Char) → Bool
  | [], _ => true
  | _ :: _, [] => false
  | a :: as, b :: bs => if charsLt a b then true else if charsLt b a then false else segLe as bs

/-- `str.split("/")` on the character list of a string (Python semantics:
`"".split("/") = [""]`, empty segments kept). -/
def splitSegsAux (cur : List Char) : List Char → List (List Char)
  | [] => [cur]
  | c :: rest => if c = '/' then cur :: splitSegsAux [] rest else splitSegsAux (cur ++ [c]) rest

/-- `x[0].split("/")`: the sort key of one checksum entry. -/
def splitSegs (s : String) : List (List Char) := splitSegsAux [] s.data

/-- The key order of the checksum sort at source line 239:
`key=lambda x: x[0].split("/")`. -/
def checksumKeyLe (a b : String × String) : Bool := segLe (splitSegs a.1) (splitSegs b.1)

/-- Stable insertion into a sorted list (the earlier element stays first on
equal keys), used to model Python's stable `sorted`. -/
def insertSorted {α : Type} (le : α → α → Bool) (x : α) : List α → List α
  | [] => [x]
  | y :: ys => if le x y then x :: y :: ys else y :: insertSorted le x ys

/-- Python's `sorted` with comparison `le`: the unique stable sort. -/
def sortBy {α : Type} (le : α → α → Bool) : List α → List α
  | [] => []
  | x :: xs => insertSorted le x (sortBy le xs)

/-- `dict(sorted(checksum.items(), key=lambda x: x[0].split("/")))` at source
line 239 (the keys are unique, so rebuilding the dict preserves the sorted
order). -/
def sortChecksums (l : List (String × String)) : List (String × String) :=
  sortBy checksumKeyLe l

theorem mem_insertSorted {α : Type} {le : α → α → Bool} {x z : α} {l : List α}
    (h : z ∈ insertSorted le x l) : z = x ∨ z ∈ l := by
  induction l with
  | nil => simpa [insertSorted] using h
  | cons y ys ih =>
    unfold insertSorted at h
    by_cases hxy : le x y = true
    · rw [if_pos hxy] at h
      simpa using h
    · rw [if_neg hxy] at h
      rcases List.mem_cons.mp h with rfl | h'
      · exact Or.inr (List.mem_cons_self _ _)
      · rcases ih h' with h'' | h''
        · exact Or.inl h''
        · exact Or.inr (List.mem_cons_of_mem _ h'')

theorem insertSorted_pairwise {α : Type} {le : α → α → Bool}
    (trans : ∀ a b c, le a b = true → le b c = true → le a c = true)
    (total : ∀ a b, (le a b || le b a) = true) {x : α} {l : List α}
    (hl : l.Pairwise (fun a b => le a b = true)) :
    (insertSorted le x l).Pairwise (fun a b => le a b = true) := by
  induction l with
  | nil => simp [insertSorted]
  | cons y ys ih =>
    rw [List.pairwise_cons] at hl
    obtain ⟨hy, hys⟩ := hl
    unfold insertSorted
    by_cases hxy : le x y = true
    · rw [if_pos hxy]
      rw [List.pairwise_cons]
      refine ⟨?_, List.pairwise_cons.mpr ⟨hy, hys⟩⟩
      intro z hz
      rcases List.mem_cons.mp hz with rfl | hz'
      · exact hxy
      · exact trans x y z hxy (hy z hz')
    · rw [if_neg hxy]
      rw [List.pairwise_cons]
      refine ⟨?_, ih hys⟩
      intro z hz
      rcases mem_insertSorted hz with rfl | hz'
      · have htot := total z y
        rcases Bool.or_eq_true_iff.mp htot with h' | h'
        · exact absurd h' hxy
        · exact h'
      · exact hy z hz'

theorem sortBy_pairwise {α : Type} {le : α → α → Bool}
    (trans : ∀ a b c, le a b = true → le b c = true → le a c = true)
    (total : ∀ a b, (le a b || le b a) = true) (l : List α) :
    (sortBy le l).Pairwise (fun a b => le a b = true) := by
  induction l with
  | nil => simp [sortBy]
  | cons x xs ih => exact insertSorted_pairwise trans total ih

theorem charsLt_trans : ∀ (x y z : List Char), charsLt x y = true → charsLt y z = true →
    charsLt x z = true := by
  intro x
  induction x with
  | nil =>
    intro y z hxy hyz
    cases y with
    | nil => exact absurd hxy (by simp [charsLt])
    | cons b bs =>
      cases z with
      | nil => exact absurd hyz (by simp [charsLt])
      | cons c cs => simp [charsLt]
  | cons a as ih =>
    intro y z hxy hyz
    cases y with
    | nil => exact absurd hxy (by simp [charsLt])
    | cons b bs =>
      cases z with
      | nil => exact absurd hyz (by simp [charsLt])
      | cons c cs =>
        unfold charsLt at hxy hyz ⊢
        by_cases hab : a < b
        · by_cases hbc : b < c
          · rw [if_pos (lt_trans hab hbc)]
          · rw [if_neg hbc] at hyz
            by_cases hcb : c < b
            · rw [if_pos hcb] at hyz
              exact absurd hyz (by simp)
            · have heq : b = c := le_antisymm (not_lt.mp hcb) (not_lt.mp hbc)
              subst heq
              rw [if_pos hab]
        · rw [if_neg hab] at hxy
          by_cases hba : b < a
          · rw [if_pos hba] at hxy
            exact absurd hxy (by simp)
          · rw [if_neg hba] at hxy
            have heq : a = b := le_antisymm (not_lt.mp hba) (not_lt.mp hab)
            subst heq
            by_cases hac : a < c
            · rw [if_pos hac]
            · rw [if_neg hac] at hyz ⊢
              by_cases hca : c < a
              · rw [if_pos hca] at hyz
                exact absurd hyz (by simp)
              · rw [if_neg hca] at hyz ⊢
                exact ih bs cs hxy hyz

theorem charsLt_eq_of_not : ∀ (x y : List Char), charsLt x y = false → charsLt y x = false →
    x = y := by
  intro x
  induction x with
  | nil =>
    intro y hxy _
    cases y with
    | nil => rfl
    | cons b bs => exact absurd hxy (by simp [charsLt])
  | cons a as ih =>
    intro y hxy hyx
    cases y with
    | nil => exact absurd hyx (by simp [charsLt])
    | cons b bs =>
      unfold charsLt at hxy hyx
      by_cases hab : a < b
      · rw [if_pos hab] at hxy
        exact absurd hxy (by simp)
      · rw [if_neg hab] at hxy
        by_cases hba : b < a
        · rw [if_pos hba] at hyx
          exact absurd hyx (by simp)
        · rw [if_neg hba] at hxy
          rw [if_neg hba, if_neg hab] at hyx
          have heq : a = b := le_antisymm (not_lt.mp hba) (not_lt.mp hab)
          rw [heq, ih bs hxy hyx]

theorem segLe_total : ∀ (x y : List (List Char)), (segLe x y || segLe y x) = true := by
  intro x
  induction x with
  | nil => intro y; simp [segLe]
  | cons a as ih =>
    intro y
    cases y with
    | nil => simp [segLe]
    | cons b bs =>
      unfold segLe
      by_cases hab : charsLt a b = true
      · rw [if_pos hab]
        simp
      · rw [if_neg hab]
        by_cases hba : charsLt b a = true
        · rw [if_pos hba, if_pos hba]
          simp
        · rw [if_neg hba, if_neg hba, if_neg hab]
          exact ih bs

theorem segLe_trans : ∀ (x y z : List (List Char)), segLe x y = true → segLe y z = true →
    segLe x z = true := by
  intro x
  induction x with
  | nil =>
    intro y z _ _
    simp [segLe]
  | cons a as ih =>
    intro y z hxy hyz
    cases y with
    | nil => exact absurd hxy (by simp [segLe])
    | cons b bs =>
      cases z with
      | nil => exact absurd hyz (by simp [segLe])
      | cons c cs =>
        unfold segLe at hxy hyz ⊢
        by_cases hab : charsLt a b = true
        · by_cases hbc : charsLt b c = true
          · rw [if_pos (charsLt_trans a b c hab hbc)]
          · rw [if_neg hbc] at hyz
            by_cases hcb : charsLt c b = true
            · rw [if_pos hcb] at hyz
              exact absurd hyz (by simp)
            · have heq : b = c := charsLt_eq_of_not b c (by simpa using hbc) (by simpa using hcb)
              subst heq
              rw [if_pos hab]
        · rw [if_neg hab] at hxy
          by_cases hba : charsLt b a = true
          · rw [if_pos hba] at hxy
            exact absurd hxy (by simp)
          · rw [if_neg hba] at hxy
            have heq : a = b := charsLt_eq_of_not a b (by simpa using hab) (by simpa using hba)
            subst heq
            by_cases hac : charsLt a c = true
            · rw [if_pos hac]
            · rw [if_neg hac] at hyz ⊢
              by_cases hca : charsLt c a = true
              · rw [if_pos hca] at hyz
                exact absurd hyz (by simp)
              · rw [if_neg hca] at hyz ⊢
                exact ih bs cs hxy hyz

theorem checksumKeyLe_trans (a b c : String × String) (h1 : checksumKeyLe a b = true)
    (h2 : checksumKeyLe b c = true) : checksumKeyLe a c = true :=
  segLe_trans _ _ _ h1 h2

theorem checksumKeyLe_total (a b : String × String) :
    (checksumKeyLe a b || checksumKeyLe b a) = true :=
  segLe_total _ _

theorem sortChecksums_pairwise (l : List (String × String)) :
    (sortChecksums l).Pairwise (fun a b => checksumKeyLe a b = true) :=
  sortBy_pairwise checksumKeyLe_trans checksumKeyLe_total l

/-- Failures a job can hit besides transform errors: a network/HTTP failure
surviving the retry budget (on the JSON fetch or one download), or a missing
external font file. -/
inductive JobError : Type
  | network
  | fontMissing (path : String)
  | transform (e : TransformError)
deriving DecidableEq

/-- Environment of one `transform_sekai_like` job: the parsed prior manifest
(if the manifest file exists), and oracles giving the outcome of each network
or filesystem read — the result of fetching and parsing the characters JSON
(after `op_retry`), the content checksum obtained by downloading one
character's image (after `op_retry`), and `calc_checksum_from_file` for an
external font path. -/
structure JobEnv : Type where
  original_manifest : Option StickerPackManifest
  fetched_chars : Except JobError (List Character)
  download_checksum : Character → Except JobError String
  font_checksum : String → Except JobError String

/-- One download task (source lines 98-113): fetch the image (its checksum is
computed from the fetched bytes), then return `(to_local_path char, checksum)`.
The file write of the asset itself is not modelled (the claims allow partial
asset files). -/
def download_task (env : JobEnv) (char : Character) : Except JobError (String × String) := do
  let checksum ← env.download_checksum char
  let relative_path ← (to_local_path char).mapError JobError.transform
  pure (relative_path, checksum)

/-- Python `dict` upsert `d[k] = v`. -/
def dictUpdate (d : List (String × String)) (k v : String) : List (String × String) :=
  if d.any fun p => p.1 = k then d.map fun p => if p.1 = k then (k, v) else p
  else d ++ [(k, v)]

/-- Python `dict(pairs)`: later pairs overwrite earlier ones, first-insertion
order kept. -/
def dictOfList (l : List (String × String)) : List (String × String) :=
  l.foldl (fun d kv => dictUpdate d kv.1 kv.2) []

/-- `prepare_resources` (source lines 87-117): gather all download tasks
(any failure aborts) and build the path→checksum dict. -/
def prepare_resources (env : JobEnv) (chars : List Character) :
    Except JobError (List (String × String)) := do
  let result ← mapExcept (download_task env) chars
  pure (dictOfList result)

/-- The font loop at source lines 237-238:
`checksum[f.path] = calc_checksum_from_file(target_path / f.path)`. -/
def mergeFontChecksums (env : JobEnv) (d : List (String × String)) :
    List ExternalFont → Except JobError (List (String × String))
  | [] => pure d
  | f :: rest => do
    let c ← env.font_checksum f.path
    mergeFontChecksums env (dictUpdate d f.path c) rest

/-- The `if original_manifest:` guard around the font loop (source line 236). -/
def mergeFonts (env : JobEnv) (checksum : List (String × String)) :
    Except JobError (List (String × String)) :=
  match env.original_manifest with
  | some m => mergeFontChecksums env checksum m.external_fonts
  | none => pure checksum

/-- Embedding of the `transform_sekai_like` orchestrator (source lines
206-251), up to the two file writes: fetch the character JSON, download all
assets, merge the external-font checksums, sort the checksum map, build the
new manifest. The pair it returns holds exactly the contents written to the
manifest file and the checksum file. -/
def transform_sekai_like (env : JobEnv) :
    Except JobError (StickerPackManifest × List (String × String)) := do
  let chars ← env.fetched_chars
  let checksum ← prepare_resources env chars
  let checksum2 ← mergeFonts env checksum
  let new_manifest ← (transform_manifest chars env.original_manifest).mapError JobError.transform
  pure (new_manifest, sortChecksums checksum2)

/-- A file write performed by a job (only the manifest and checksum files are
modelled; asset writes may be partial on failure and are out of scope of the
claims). -/
inductive FileWrite : Type
  | manifest (m : StickerPackManifest)
  | checksums (entries : List (String × String))
deriving DecidableEq

/-- The writes at source lines 242-251: the manifest file then the checksum
file, reached only when every earlier stage succeeded; an exception anywhere
above aborts the job with nothing written. -/
def job_file_writes (env : JobEnv) : List FileWrite :=
  match transform_sekai_like env with
  | .ok (m, cks) => [FileWrite.manifest m, FileWrite.checksums cks]
  | .error _ => []

/-- Projection: the checksum map written by a successful job. -/
def checksumsOfResult
    (r : Except JobError (StickerPackManifest × List (String × String))) :
    List (String × String) :=
  match r with
  | .ok (_, cks) => cks
  | .error _ => []

theorem transform_sekai_like_ok_elim {env : JobEnv}
    {m : StickerPackManifest} {cks : List (String × String)}
    (h : transform_sekai_like env = .ok (m, cks)) :
    ∃ chars checksum checksum2,
      env.fetched_chars = .ok chars ∧
      prepare_resources env chars = .ok checksum ∧
      mergeFonts env checksum = .ok checksum2 ∧
      cks = sortChecksums checksum2 ∧
      (transform_manifest chars env.original_manifest).mapError JobError.transform = .ok m := by
  unfold transform_sekai_like at h
  cases hf : env.fetched_chars with
  | error e => rw [hf, exbind_error] at h; exact absurd h (by simp)
  | ok chars =>
    rw [hf, exbind_ok] at h
    cases hp : prepare_resources env chars with
    | error e => rw [hp, exbind_error] at h; exact absurd h (by simp)
    | ok checksum =>
      rw [hp, exbind_ok] at h
      cases hm : mergeFonts env checksum with
      | error e => rw [hm, exbind_error] at h; exact absurd h (by simp)
      | ok checksum2 =>
        rw [hm, exbind_ok] at h
        cases ht : (transform_manifest chars env.original_manifest).mapError
            JobError.transform with
        | error e => rw [ht, exbind_error] at h; exact absurd h (by simp)
        | ok nm =>
          rw [ht, exbind_ok] at h
          have hpair := Except.ok.inj h
          simp only [Prod.mk.injEq] at hpair
          exact ⟨chars, checksum, checksum2, rfl, hp, hm, hpair.2.symm, hpair.1 ▸ ht⟩

theorem mergeFontChecksums_ok_of_mem {env : JobEnv} {d out : List (String × String)}
    {fonts : List ExternalFont} (h : mergeFontChecksums env d fonts = .ok out) :
    ∀ f ∈ fonts, ∃ s, env.font_checksum f.path = .ok s := by
  induction fonts generalizing d with
  | nil => intro f hf; cases hf
  | cons f0 rest ih =>
    intro f hf
    unfold mergeFontChecksums at h
    cases hc : env.font_checksum f0.path with
    | error e => rw [hc, exbind_error] at h; exact absurd h (by simp)
    | ok c =>
      rw [hc, exbind_ok] at h
      rcases List.mem_cons.mp hf with rfl | hmem
      · exact ⟨c, hc⟩
      · exact ih h f hmem

/-- C4: if fetching succeeded but any single asset download fails
unrecoverably, the job aborts with neither the manifest file nor the checksum
file written; conversely the two files are written only when the source fetch,
every asset download, and every font-checksum read succeeded. -/
theorem c4_no_partial_writes (env : JobEnv) :
    (∀ chars c, env.fetched_chars = .ok chars → c ∈ chars →
      exceptOk (env.download_checksum c) = false → job_file_writes env = []) ∧
    (job_file_writes env ≠ [] →
      ∃ chars, env.fetched_chars = .ok chars ∧
        (∀ c ∈ chars, ∃ s, env.download_checksum c = .ok s) ∧
        (∀ m, env.original_manifest = some m →
          ∀ f ∈ m.external_fonts, ∃ s, env.font_checksum f.path = .ok s)) := by
  constructor
  · intro chars c hf hc hdc
    have htask : exceptOk (download_task env c) = false := by
      unfold download_task
      cases hd : env.download_checksum c with
      | error e => rw [exbind_error]; rfl
      | ok s => rw [hd] at hdc; exact absurd hdc (by simp [exceptOk])
    obtain ⟨e, he⟩ := mapExcept_error_of_mem hc htask
    have hprep : prepare_resources env chars = .error e := by
      unfold prepare_resources
      rw [he, exbind_error]
    have hts : transform_sekai_like env = .error e := by
      unfold transform_sekai_like
      rw [hf, exbind_ok, hprep, exbind_error]
    unfold job_file_writes
    rw [hts]
  · intro hw
    unfold job_file_writes at hw
    cases hres : transform_sekai_like env with
    | error e => rw [hres] at hw; exact absurd rfl hw
    | ok p =>
      obtain ⟨m, cks⟩ := p
      obtain ⟨chars, checksum, checksum2, hf, hp, hm, hcks, ht⟩ :=
        transform_sekai_like_ok_elim hres
      refine ⟨chars, hf, ?_, ?_⟩
      · intro c hc
        unfold prepare_resources at hp
        cases hmap : mapExcept (download_task env) chars with
        | error e => rw [hmap, exbind_error] at hp; exact absurd hp (by simp)
        | ok results =>
          obtain ⟨pc, hpc⟩ := mapExcept_ok_of_mem hmap hc
          unfold download_task at hpc
          cases hd : env.download_checksum c with
          | error e => rw [hd, exbind_error] at hpc; exact absurd hpc (by simp)
          | ok s => exact ⟨s, rfl⟩
      · intro m' hm' f hfm
        unfold mergeFonts at hm
        rw [hm'] at hm
        exact mergeFontChecksums_ok_of_mem hm f hfm

/-- A job whose single download always fails, for concrete evaluation of
`c4_no_partial_writes`. -/
def c4Env : JobEnv :=
  { original_manifest := none
    fetched_chars := .ok [c1Char]
    download_checksum := fun _ => .error .network
    font_checksum := fun _ => .ok "00" }

/-- Witness for `c4_no_partial_writes`: in `c4Env` the only download fails, and
no file is written. -/
theorem c4_no_partial_writes_witness :
    c4Env.fetched_chars = .ok [c1Char] ∧ c1Char ∈ [c1Char] ∧
    exceptOk (c4Env.download_checksum c1Char) = false ∧
    job_file_writes c4Env = [] :=
  ⟨rfl, List.mem_cons_self _ _, rfl,
   (c4_no_partial_writes c4Env).1 [c1Char] c1Char rfl (List.mem_cons_self _ _) rfl⟩

/-- C6: the checksum map a successful job writes to disk is sorted by path
segments (each key split on `/`, compared as Python compares lists of
strings). -/
theorem c6_checksums_sorted (env : JobEnv)
    (h : exceptOk (transform_sekai_like env) = true) :
    (checksumsOfResult (transform_sekai_like env)).Pairwise
      (fun a b => checksumKeyLe a b = true) := by
  cases hres : transform_sekai_like env with
  | error e => rw [hres] at h; exact absurd h (by simp [exceptOk])
  | ok p =>
    obtain ⟨m, cks⟩ := p
    obtain ⟨chars, checksum, checksum2, hf, hp, hm, hcks, ht⟩ :=
      transform_sekai_like_ok_elim hres
    show cks.Pairwise fun a b => checksumKeyLe a b = true
    rw [hcks]
    exact sortChecksums_pairwise checksum2

/-- A character whose local path is `Zeta/b.png`. -/
def c6CharZ : Character := .sekai
  { id := "1", name := "zn", character := "zeta", img := "b.png", color := "FFF",
    default_text := { text := "t", x := 0, y := 0, r := 0, s := 1 } }

/-- A character whose local path is `Alpha/a.png`. -/
def c6CharA : Character := .sekai
  { id := "2", name := "an", character := "alpha", img := "a.png", color := "FFF",
    default_text := { text := "t", x := 0, y := 0, r := 0, s := 1 } }

/-- A job assembling checksum keys `["Zeta/b.png", "Alpha/a.png"]` in that
order, for concrete evaluation of `c6_checksums_sorted`. -/
def c6Env : JobEnv :=
  { original_manifest := none
    fetched_chars := .ok [c6CharZ, c6CharA]
    download_checksum := fun c => if Character.img c = "b.png" then .ok "hb" else .ok "ha"
    font_checksum := fun _ => .error .network }

/-- Witness for `c6_checksums_sorted`: the assembled keys
`["Zeta/b.png", "Alpha/a.png"]` are emitted with `Alpha/a.png` first, sorted by
path segments. -/
theorem c6_checksums_sorted_witness :
    exceptOk (transform_sekai_like c6Env) = true ∧
    checksumsOfResult (transform_sekai_like c6Env) =
      [("Alpha/a.png", "ha"), ("Zeta/b.png", "hb")] ∧
    (checksumsOfResult (transform_sekai_like c6Env)).Pairwise
      (fun a b => checksumKeyLe a b = true) :=
  ⟨by decide, by decide, c6_checksums_sorted c6Env (by decide)⟩
